import Mathlib

set_option maxHeartbeats 1000000

/-!
Shallow embedding of the versioned state cloning and assembly subsystem of
`pkg/app/service.go` (the app service of a collaborative app-builder backend),
together with proofs of the specified properties.

Machine integers are modelled as `Int` (Go `int`); identifier-generating
storage is modelled as in-memory tables with serial counters; Go's
`(value, error)` multiple returns are modelled as explicit pairs with
`Option String` for the error slot (`none` = Go's `nil` error); a Go runtime
panic is modelled as the `none` of an outer `Option`.
-/

/-!
## JSON integer-array codec

`convertLink` serialises `[]int` with `encoding/json`.  `encodeIds` models
`json.Marshal` of a non-nil `[]int` exactly (decimal digits, comma separated,
no whitespace).  `decodeIds` models `json.Unmarshal` into `*[]int` on the
grammar of integer-array literals: a well-formed array of integers (leading
zeros rejected, as in JSON) decodes to its element list, the literal `null`
unmarshals into a nil slice without error (hence the empty list), and every
other input yields an error (`none`).  Interior whitespace, which
`json.Marshal` never emits and no property here exercises, is treated as
malformed.
-/

def digitsToNatAux (acc : Nat) : List Char → Nat
  | [] => acc
  | c :: cs => digitsToNatAux (acc * 10 + (c.toNat - 48)) cs

def digitsToNat (ds : List Char) : Nat := digitsToNatAux 0 ds

def natDigitsAux : Nat → Nat → List Char
  | 0, _ => []
  | fuel + 1, n =>
    if n < 10 then [Nat.digitChar n]
    else natDigitsAux fuel (n / 10) ++ [Nat.digitChar (n % 10)]

/-- The decimal digit characters of `n`, most significant first. -/
def natDigits (n : Nat) : List Char := natDigitsAux (n + 1) n

/-- The characters `json.Marshal` emits for one `int`. -/
def intChars (i : Int) : List Char :=
  if i < 0 then '-' :: natDigits i.natAbs else natDigits i.toNat

/-- Comma-separated rendering of the elements. -/
def sepChars : List Int → List Char
  | [] => []
  | [i] => intChars i
  | i :: rest => intChars i ++ ',' :: sepChars rest

def encodeChars (l : List Int) : List Char := '[' :: (sepChars l ++ [']'])

/-- `json.Marshal` of a non-nil `[]int`. -/
def encodeIds (l : List Int) : String := String.mk (encodeChars l)

/-- Longest digit prefix of the character stream, with the remainder. -/
def readDigits : List Char → List Char × List Char
  | [] => ([], [])
  | c :: cs =>
    if c.isDigit then
      let p := readDigits cs
      (c :: p.1, p.2)
    else ([], c :: cs)

/-- One unsigned JSON integer (no leading zeros) from the stream. -/
def parseUnsigned (cs : List Char) : Option (Nat × List Char) :=
  let p := readDigits cs
  if p.1 = [] then none
  else if 1 < p.1.length ∧ p.1.headD 'x' = '0' then none
  else some (digitsToNat p.1, p.2)

/-- One JSON integer (optional leading minus) from the stream. -/
def parseInt : List Char → Option (Int × List Char)
  | [] => none
  | c :: cs =>
    if c = '-' then
      match parseUnsigned cs with
      | none => none
      | some (n, r) => some (-(n : Int), r)
    else
      match parseUnsigned (c :: cs) with
      | none => none
      | some (n, r) => some ((n : Int), r)

/-- The elements after the opening bracket of a non-empty array literal:
one integer, then either the closing bracket ending the input or a comma and
more elements.  The fuel only bounds the recursion; `decodeIds` passes enough
for any input. -/
def parseSeq : Nat → List Char → Option (List Int)
  | 0, _ => none
  | fuel + 1, cs =>
    match parseInt cs with
    | none => none
    | some (i, r) =>
      if r = [']'] then some [i]
      else
        match r with
        | ',' :: r2 =>
          match parseSeq fuel r2 with
          | none => none
          | some is => some (i :: is)
        | _ => none

/-- `json.Unmarshal` of `s` into `*[]int`: `none` models a returned error. -/
def decodeIds (s : String) : Option (List Int) :=
  if s.data = ['n', 'u', 'l', 'l'] then some []
  else
    match s.data with
    | '[' :: rest => if rest = [']'] then some [] else parseSeq rest.length rest
    | _ => none

/-- Go map indexing `idMap[k]` on an `map[int]int`: the zero value `0` when the
key is absent.  The map built by the clone loops is keyed by primary-key row
identifiers, so duplicate keys never arise; the association list is searched
front-to-back. -/
def mapLookup (m : List (Int × Int)) (k : Int) : Int :=
  match m.find? (fun p => p.1 == k) with
  | some p => p.2
  | none => 0

/-- `convertLink` of service.go: decode the serialized children-reference
list, translate every entry through `idMap`, re-encode.  A failed unmarshal
returns `""`; `json.Marshal` of an `[]int` cannot fail, so the second error
return of the Go function is unreachable. -/
def convertLink (ref : String) (idMap : List (Int × Int)) : String :=
  match decodeIds ref with
  | none => ""
  | some oldIDs => encodeIds (oldIDs.map (fun oldID => mapLookup idMap oldID))

/-!
## Data model

Rows of the four state stores and the app table, as in the repository
package used by service.go.  `time.Time` audit stamps are set to the wall
clock by the service and participate in no property, so they are omitted;
the integer audit fields are kept.  Each table carries its serial
primary-key counter (`next...Id`): `Create` assigns the next identifier, as
the underlying store does at insertion time.
-/

structure App where
  id : Int
  name : String
  releaseVersion : Int
  mainlineVersion : Int
  createdBy : Int
  updatedBy : Int
deriving DecidableEq

structure TreeState where
  id : Int
  stateType : Int
  parentNodeRefID : Int
  childrenNodeRefIDs : String
  appRefID : Int
  version : Int
  name : String
  content : String
  createdBy : Int
  updatedBy : Int
deriving DecidableEq

structure KVState where
  id : Int
  stateType : Int
  appRefID : Int
  version : Int
  key : String
  value : String
  createdBy : Int
  updatedBy : Int
deriving DecidableEq

structure SetState where
  id : Int
  stateType : Int
  appRefID : Int
  version : Int
  value : String
  createdBy : Int
  updatedBy : Int
deriving DecidableEq

structure ActionRecord where
  id : Int
  app : Int
  version : Int
  resource : Int
  name : String
  type : Int
  template : String
  transformer : String
  triggerMode : String
  createdBy : Int
  updatedBy : Int
deriving DecidableEq

structure Db where
  apps : List App
  treeStates : List TreeState
  kvStates : List KVState
  setStates : List SetState
  actions : List ActionRecord
  nextAppId : Int
  nextTreeStateId : Int
  nextKVStateId : Int
  nextSetStateId : Int
  nextActionId : Int
deriving DecidableEq

def APP_EDIT_VERSION : Int := 0

/-- Modelled from the spec: the numeric values of the state-kind constants are
declared in the repository package, which is not under src; only their
identity matters to this embedding. -/
def TREE_STATE_TYPE_COMPONENTS : Int := 1

/-- Modelled from the spec: see `TREE_STATE_TYPE_COMPONENTS`. -/
def KV_STATE_TYPE_DEPENDENCIES : Int := 1

/-- Modelled from the spec: see `TREE_STATE_TYPE_COMPONENTS`. -/
def KV_STATE_TYPE_DRAG_SHADOW : Int := 2

/-- Modelled from the spec: see `TREE_STATE_TYPE_COMPONENTS`. -/
def KV_STATE_TYPE_DOTTED_LINE_SQUARE : Int := 3

/-- Modelled from the spec: see `TREE_STATE_TYPE_COMPONENTS`. -/
def SET_STATE_TYPE_DISPLAY_NAME : Int := 1

/-- The name of the single root node of a component tree. -/
def TREE_STATE_SUMMIT_NAME : String := "root"

/-! ## Storage port operations -/

def retrieveAppByID (db : Db) (appID : Int) : Option App :=
  db.apps.find? (fun a => a.id == appID)

def updateApp (db : Db) (a : App) : Db :=
  { db with apps := db.apps.map (fun r => if r.id == a.id then a else r) }

def retrieveAllTypeTreeStatesByApp (db : Db) (appID version : Int) : List TreeState :=
  db.treeStates.filter (fun r => r.appRefID == appID && r.version == version)

def retrieveTreeStatesByApp (db : Db) (appID stateType version : Int) : List TreeState :=
  db.treeStates.filter
    (fun r => r.appRefID == appID && r.stateType == stateType && r.version == version)

/-- `treestateRepository.Create`: the store assigns the next serial
identifier, writes it into the inserted row, and returns it. -/
def createTreeState (db : Db) (r : TreeState) : Int × Db :=
  (db.nextTreeStateId,
   { db with
       treeStates := db.treeStates ++ [{ r with id := db.nextTreeStateId }],
       nextTreeStateId := db.nextTreeStateId + 1 })

/-- `treestateRepository.Update`: rewrite the row whose primary key matches. -/
def updateTreeState (db : Db) (r : TreeState) : Db :=
  { db with treeStates := db.treeStates.map (fun s => if s.id == r.id then r else s) }

def retrieveAllTypeKVStatesByApp (db : Db) (appID version : Int) : List KVState :=
  db.kvStates.filter (fun r => r.appRefID == appID && r.version == version)

def retrieveKVStatesByApp (db : Db) (appID stateType version : Int) : List KVState :=
  db.kvStates.filter
    (fun r => r.appRefID == appID && r.stateType == stateType && r.version == version)

def createKVStates : Db → List KVState → Db
  | db, [] => db
  | db, r :: rest =>
    createKVStates
      { db with
          kvStates := db.kvStates ++ [{ r with id := db.nextKVStateId }],
          nextKVStateId := db.nextKVStateId + 1 } rest

def retrieveSetStatesByApp (db : Db) (appID stateType version : Int) : List SetState :=
  db.setStates.filter
    (fun r => r.appRefID == appID && r.stateType == stateType && r.version == version)

def createSetStates : Db → List SetState → Db
  | db, [] => db
  | db, r :: rest =>
    createSetStates
      { db with
          setStates := db.setStates ++ [{ r with id := db.nextSetStateId }],
          nextSetStateId := db.nextSetStateId + 1 } rest

def retrieveActionsByAppVersion (db : Db) (appID version : Int) : List ActionRecord :=
  db.actions.filter (fun a => a.app == appID && a.version == version)

def createActions : Db → List ActionRecord → Db
  | db, [] => db
  | db, r :: rest =>
    createActions
      { db with
          actions := db.actions ++ [{ r with id := db.nextActionId }],
          nextActionId := db.nextActionId + 1 } rest

/-!
## Reference Remapper + Tree Relinker

`copyAllTreeState` / `releaseTreeStateByApp` of service.go.  Phase 1 walks
the retrieved rows in order, clears each identifier, rewrites the scope
fields, inserts the row, and records the pair (original identifier, assigned
identifier) — `indexIDMap`/`releaseIDMap` of the Go code.  Phase 2 rewrites
every cloned row's children list through `convertLink` and its parent
reference through the map and persists it with an update.
-/

/-- Phase 1 of the clone loops: insert each staged row (paired with its
original identifier), collecting the old-to-new identifier map and the
created rows, which now carry their store-assigned identifiers (the store
writes the assigned key back into the created record). -/
def createStagedTreeStates : Db → List (Int × TreeState) → Db × (List (Int × Int) × List TreeState)
  | db, [] => (db, ([], []))
  | db, (oldID, row) :: rest =>
    let c := createTreeState db row
    let r := createStagedTreeStates c.2 rest
    (r.1, ((oldID, c.1) :: r.2.1, { row with id := c.1 } :: r.2.2))

/-- Phase 2 rewrite of one cloned row (the two assignments of the Go relink
loop body). -/
def relinkTreeState (idMap : List (Int × Int)) (r : TreeState) : TreeState :=
  { r with
      childrenNodeRefIDs := convertLink r.childrenNodeRefIDs idMap,
      parentNodeRefID := mapLookup idMap r.parentNodeRefID }

/-- `copyAllTreeState(appA, appB, user)`: clone every tree-state row of
(appA, edit version) into (appB, edit version), then relink. -/
def copyAllTreeState (db : Db) (appA appB user : Int) : Db :=
  let treestates := retrieveAllTypeTreeStatesByApp db appA APP_EDIT_VERSION
  let staged := treestates.map (fun r =>
    { r with id := 0, appRefID := appB, version := APP_EDIT_VERSION,
             createdBy := user, updatedBy := user })
  let p := createStagedTreeStates db ((treestates.map (fun r => r.id)).zip staged)
  let releaseIDMap := p.2.1
  let created := p.2.2
  created.foldl (fun acc r => updateTreeState acc (relinkTreeState releaseIDMap r)) p.1

/-- `releaseTreeStateByApp`: clone every tree-state row of (app, edit
version) into (app, mainline version), then relink. -/
def releaseTreeStateByApp (db : Db) (appID mainlineVersion : Int) : Db :=
  let treestates := retrieveAllTypeTreeStatesByApp db appID APP_EDIT_VERSION
  let staged := treestates.map (fun r => { r with id := 0, version := mainlineVersion })
  let p := createStagedTreeStates db ((treestates.map (fun r => r.id)).zip staged)
  let releaseIDMap := p.2.1
  let created := p.2.2
  created.foldl (fun acc r => updateTreeState acc (relinkTreeState releaseIDMap r)) p.1

/-- `copyAllKVState`: clone every kv-state row of (appA, edit version) into
(appB, edit version).  No internal references, so no relink pass. -/
def copyAllKVState (db : Db) (appA appB user : Int) : Db :=
  let kvstates := retrieveAllTypeKVStatesByApp db appA APP_EDIT_VERSION
  let staged := kvstates.map (fun r =>
    { r with id := 0, appRefID := appB, version := APP_EDIT_VERSION,
             createdBy := user, updatedBy := user })
  createKVStates db staged

/-- `releaseKVStateByApp`. -/
def releaseKVStateByApp (db : Db) (appID mainlineVersion : Int) : Db :=
  let kvstates := retrieveAllTypeKVStatesByApp db appID APP_EDIT_VERSION
  let staged := kvstates.map (fun r => { r with id := 0, version := mainlineVersion })
  createKVStates db staged

/-- `copyAllSetState`. -/
def copyAllSetState (db : Db) (appA appB user : Int) : Db :=
  let setstates := retrieveSetStatesByApp db appA SET_STATE_TYPE_DISPLAY_NAME APP_EDIT_VERSION
  let staged := setstates.map (fun r =>
    { r with id := 0, appRefID := appB, version := APP_EDIT_VERSION,
             createdBy := user, updatedBy := user })
  createSetStates db staged

/-- `releaseSetStateByApp`. -/
def releaseSetStateByApp (db : Db) (appID mainlineVersion : Int) : Db :=
  let setstates := retrieveSetStatesByApp db appID SET_STATE_TYPE_DISPLAY_NAME APP_EDIT_VERSION
  let staged := setstates.map (fun r => { r with id := 0, version := mainlineVersion })
  createSetStates db staged

/-- `copyActions`. -/
def copyActions (db : Db) (appA appB user : Int) : Db :=
  let actions := retrieveActionsByAppVersion db appA APP_EDIT_VERSION
  let staged := actions.map (fun r =>
    { r with id := 0, app := appB, version := APP_EDIT_VERSION,
             createdBy := user, updatedBy := user })
  createActions db staged

/-- `releaseActionsByApp`. -/
def releaseActionsByApp (db : Db) (appID mainlineVersion : Int) : Db :=
  let actions := retrieveActionsByAppVersion db appID APP_EDIT_VERSION
  let staged := actions.map (fun r => { r with id := 0, version := mainlineVersion })
  createActions db staged

/-!
## Coordinators

Go multiple returns `(int, error)` / `(AppDto, error)` are modelled as pairs
whose second component is the error (`none` = nil).  The Go coordinators
discard the error of every clone sub-step (`_ = impl.copy...` /
`_ = impl.release...`), and `ReleaseApp` returns `-1, nil` — a nil error —
when the app read or the counter update fails; the model reproduces the app
read branch literally (in this store model row creations and updates do not
fail, so those two Go branches have no further trigger here).
-/

/-- `ReleaseApp(appID)`. -/
def ReleaseApp (db : Db) (appID : Int) : (Int × Option String) × Db :=
  match retrieveAppByID db appID with
  | none => ((-1, none), db)
  | some app =>
    let app2 := { app with
                    mainlineVersion := app.mainlineVersion + 1,
                    releaseVersion := app.mainlineVersion + 1 }
    let db1 := releaseTreeStateByApp db appID app2.mainlineVersion
    let db2 := releaseKVStateByApp db1 appID app2.mainlineVersion
    let db3 := releaseSetStateByApp db2 appID app2.mainlineVersion
    let db4 := releaseActionsByApp db3 appID app2.mainlineVersion
    let db5 := updateApp db4 app2
    ((app2.releaseVersion, none), db5)

/-- `DuplicateApp(appID, userID, name)`: create a fresh app record with draft
counters, then clone all four state kinds into it.  (The user-profile lookup
feeding `AppActivity` is an external collaborator and is omitted.) -/
def DuplicateApp (db : Db) (appID userID : Int) (name : String) :
    (Option App × Option String) × Db :=
  match retrieveAppByID db appID with
  | none => ((none, some "record not found"), db)
  | some _ =>
    let appB : App :=
      { id := db.nextAppId, name := name, releaseVersion := 0, mainlineVersion := 0,
        createdBy := userID, updatedBy := userID }
    let db0 := { db with apps := db.apps ++ [appB], nextAppId := db.nextAppId + 1 }
    let db1 := copyAllTreeState db0 appID appB.id userID
    let db2 := copyAllKVState db1 appID appB.id userID
    let db3 := copyAllSetState db2 appID appB.id userID
    let db4 := copyActions db3 appID appB.id userID
    ((some appB, none), db4)

/-!
## Editor Assembler

Read-only assembly of the composite editor document for one (app, version).
Go's `map[string]...` results are modelled as association lists in retrieval
order (keys are unique within one kind/app/version, so insertion never
overwrites).  Go's dynamic `interface{}` values are modelled by `GoValue`.
The JSON deserializers for the kv values (`json.Unmarshal` into `[]string`
resp. `map[string]interface{}`, whose error the Go code ignores) are taken
as function parameters: which function is applied is exactly what the
assembly properties are about.
-/

inductive GoValue where
  | str : String → GoValue
  | obj : List (String × GoValue) → GoValue

/-- The fixed 22-entry action type enumeration of service.go. -/
def type_array : List String :=
  ["transformer", "restapi", "graphql", "redis", "mysql", "mariadb", "postgresql", "mongodb",
   "tidb", "elasticsearch", "s3", "smtp", "supabasedb", "firebase", "clickhouse", "mssql",
   "huggingface", "dynamodb", "snowflake", "couchdb", "hfendpoint", "oracle"]

/-- The Go expression `type_array[value.Type]`: an index outside `0..21` is an
out-of-bounds array access, i.e. a runtime panic — modelled as `none`. -/
def typeArrayIndex (t : Int) : Option String :=
  if h : 0 ≤ t ∧ t.toNat < type_array.length then some (type_array.get ⟨t.toNat, h.2⟩)
  else none

structure ActionOut where
  id : Int
  resource : Int
  displayName : String
  type : String
  template : String
  transformer : String
  triggerMode : String
  createdBy : Int
  updatedBy : Int
deriving DecidableEq

/-- Apply `f` to every element; the first `none` (a panic inside the Go loop)
aborts the whole computation. -/
def mapOpt (f : α → Option β) : List α → Option (List β)
  | [] => some []
  | a :: t =>
    match f a with
    | none => none
    | some b =>
      match mapOpt f t with
      | none => none
      | some bs => some (b :: bs)

/-- `formatActions`: each stored action row becomes a document action whose
`type` is the `type_array` entry at the row's integer `Type` field.  `none`
models the panic of the unchecked index. -/
def formatActions (db : Db) (appID version : Int) : Option (List ActionOut) :=
  mapOpt
    (fun a =>
      match typeArrayIndex a.type with
      | none => none
      | some ty =>
        some { id := a.id, resource := a.resource, displayName := a.name, type := ty,
               template := a.template, transformer := a.transformer,
               triggerMode := a.triggerMode, createdBy := a.createdBy,
               updatedBy := a.updatedBy })
    (retrieveActionsByAppVersion db appID version)

inductive ComponentNode where
  | mk : String → String → List ComponentNode → ComponentNode

def lookupRow (m : List (Int × TreeState)) (k : Int) : Option TreeState :=
  (m.find? (fun p => p.1 == k)).map (fun p => p.2)

/-- Modelled from the spec: `buildComponentTree` lives in a source file of
this package that is not under src (only its caller `formatComponents` is).
Per the spec the assembler recursively resolves each node's decoded children
references through the retrieved row set into a nested structure; the fuel
bounds the recursion depth and is always passed large enough for a tree. -/
def buildComponentTree : Nat → TreeState → List (Int × TreeState) → Option ComponentNode
  | 0, _, _ => none
  | fuel + 1, node, tempMap =>
    let childIDs := (decodeIds node.childrenNodeRefIDs).getD []
    let children := childIDs.filterMap (fun cid =>
      match lookupRow tempMap cid with
      | none => none
      | some child => buildComponentTree fuel child tempMap)
    some (ComponentNode.mk node.name node.content children)

/-- The zero `repository.TreeState{}` the Go root search starts from. -/
def emptyTreeState : TreeState :=
  { id := 0, stateType := 0, parentNodeRefID := 0, childrenNodeRefIDs := "",
    appRefID := 0, version := 0, name := "", content := "", createdBy := 0, updatedBy := 0 }

/-- `formatComponents`: zero retrieved rows is the error `no component`
(with a nil node); otherwise the row named `root` seeds the recursive
assembly, whose own error the Go code discards. -/
def formatComponents (db : Db) (appID version : Int) : Option ComponentNode × Option String :=
  let res := retrieveTreeStatesByApp db appID TREE_STATE_TYPE_COMPONENTS version
  if res.length = 0 then (none, some "no component")
  else
    let root := res.foldl (fun acc c => if c.name == TREE_STATE_SUMMIT_NAME then c else acc)
      emptyTreeState
    let tempMap := res.map (fun c => (c.id, c))
    (buildComponentTree (res.length + 1) root tempMap, none)

/-- `formatDependenciesState`: key each retrieved row by its key field and
store the value unmarshalled into a string list (`revMsg`; nil on a failed
unmarshal, whose error Go ignores — both inside the total `uDeps`). -/
def formatDependenciesState (uDeps : String → List String) (db : Db) (appID version : Int) :
    List (String × List String) :=
  (retrieveKVStatesByApp db appID KV_STATE_TYPE_DEPENDENCIES version).map
    (fun r => (r.key, uDeps r.value))

/-- `formatDragShadowState`: key each retrieved row by its key field and
store the value unmarshalled into an object (`revMsg`). -/
def formatDragShadowState (uObj : String → List (String × GoValue)) (db : Db)
    (appID version : Int) : List (String × GoValue) :=
  (retrieveKVStatesByApp db appID KV_STATE_TYPE_DRAG_SHADOW version).map
    (fun r => (r.key, GoValue.obj (uObj r.value)))

/-- `formatDottedLineSquareState`: the Go loop unmarshals `line.Value` into
`revMsg` but then stores `line.Value` itself — the raw serialized string —
into the map (`resMap[line.Key] = line.Value`), so the unmarshalled value is
dead and the entry is the `GoValue.str` of the raw string. -/
def formatDottedLineSquareState (uObj : String → List (String × GoValue)) (db : Db)
    (appID version : Int) : List (String × GoValue) :=
  (retrieveKVStatesByApp db appID KV_STATE_TYPE_DOTTED_LINE_SQUARE version).map
    (fun r => (r.key, GoValue.str r.value))

/-- `formatDisplayNameState`: the flat ordered collection of values. -/
def formatDisplayNameState (db : Db) (appID version : Int) : List String :=
  (retrieveSetStatesByApp db appID SET_STATE_TYPE_DISPLAY_NAME version).map
    (fun r => r.value)

/-- The composite editor document (`Editor` of service.go; `appInfo` keeps
the app row, the external user-profile lookup feeding `AppActivity` is
omitted). -/
structure Editor where
  appInfo : App
  actions : List ActionOut
  components : Option ComponentNode
  dependenciesState : List (String × List String)
  dragShadowState : List (String × GoValue)
  dottedLineSquareState : List (String × GoValue)
  displayNameState : List String

/-- `fetchEditor`: validate the app and the requested version, then assemble
the document, discarding each section's error (`res.X, _ = impl.formatX`).
The outer `Option` is the panic channel: an out-of-range action type aborts
the assembly with a runtime panic instead of an error (`none`); `some`
carries the Go `(Editor, error)` result. -/
def fetchEditor (uDeps : String → List String) (uObj : String → List (String × GoValue))
    (db : Db) (appID version : Int) : Option (Except String Editor) :=
  match retrieveAppByID db appID with
  | none => some (Except.error "record not found")
  | some app =>
    if app.id = 0 ∨ app.mainlineVersion < version then some (Except.error "content not found")
    else
      match formatActions db appID version with
      | none => none
      | some acts =>
        some (Except.ok
          { appInfo := app
            actions := acts
            components := (formatComponents db appID version).1
            dependenciesState := formatDependenciesState uDeps db appID version
            dragShadowState := formatDragShadowState uObj db appID version
            dottedLineSquareState := formatDottedLineSquareState uObj db appID version
            displayNameState := formatDisplayNameState db appID version })

/-- `GetMegaData`: delegate to `fetchEditor` and pass its result through. -/
def GetMegaData (uDeps : String → List String) (uObj : String → List (String × GoValue))
    (db : Db) (appID version : Int) : Option (Except String Editor) :=
  fetchEditor uDeps uObj db appID version

/-!
## Proof-support definitions

Closed forms for the clone loops (the serial store makes the assigned
identifiers `n0, n0+1, ...`), abbreviations used by the statements, and the
concrete stores the witnesses instantiate the theorems at.
-/

/-- The staged rows with the identifiers the serial store assigns in order. -/
def assignIds (n0 : Int) : List TreeState → List TreeState
  | [] => []
  | r :: t => { r with id := n0 } :: assignIds (n0 + 1) t

/-- The old-to-new identifier pairs phase 1 records, in insertion order. -/
def idPairs (n0 : Int) : List Int → List (Int × Int)
  | [] => []
  | x :: t => (x, n0) :: idPairs (n0 + 1) t

/-- Default row for positional indexing in statements. -/
def dtree : TreeState := emptyTreeState

/-- The decoded children-reference list of a row (empty when malformed). -/
def decodedChildren (r : TreeState) : List Int :=
  (decodeIds r.childrenNodeRefIDs).getD []

/-- The tree-state rows a Duplicate reads: source app, edit version. -/
def srcRows (db : Db) (appA : Int) : List TreeState :=
  retrieveAllTypeTreeStatesByApp db appA APP_EDIT_VERSION

/-- The tree-state rows of the clone target after `copyAllTreeState`. -/
def clonedRows (db : Db) (appA appB user : Int) : List TreeState :=
  retrieveAllTypeTreeStatesByApp (copyAllTreeState db appA appB user) appB APP_EDIT_VERSION

def appW : App :=
  { id := 1, name := "app", releaseVersion := 0, mainlineVersion := 0,
    createdBy := 9, updatedBy := 9 }

def treeRowW (i p : Int) (ch : String) : TreeState :=
  { id := i, stateType := 1, parentNodeRefID := p, childrenNodeRefIDs := ch,
    appRefID := 1, version := 0, name := if i == 1 then "root" else "node",
    content := "c", createdBy := 9, updatedBy := 9 }

/-- A store holding one app with a three-node component tree. -/
def dbIso : Db :=
  { apps := [appW],
    treeStates := [treeRowW 1 0 "[2,3]", treeRowW 2 1 "[]", treeRowW 3 1 "[]"],
    kvStates := [], setStates := [], actions := [],
    nextAppId := 2, nextTreeStateId := 4, nextKVStateId := 1,
    nextSetStateId := 1, nextActionId := 1 }

/-- The empty store: every table empty, serials at 1. -/
def dbEmpty : Db :=
  { apps := [], treeStates := [], kvStates := [], setStates := [], actions := [],
    nextAppId := 1, nextTreeStateId := 1, nextKVStateId := 1,
    nextSetStateId := 1, nextActionId := 1 }

def actionRowW (t : Int) : ActionRecord :=
  { id := 1, app := 1, version := 0, resource := 2, name := "act", type := t,
    template := "tpl", transformer := "tr", triggerMode := "manually",
    createdBy := 9, updatedBy := 9 }

/-- App 1 at mainline 0 with one stored action whose Type is 22 — one past
the end of `type_array`. -/
def dbBadAction : Db :=
  { apps := [appW], treeStates := [], kvStates := [], setStates := [],
    actions := [actionRowW 22],
    nextAppId := 2, nextTreeStateId := 1, nextKVStateId := 1,
    nextSetStateId := 1, nextActionId := 2 }

/-- App 1 at mainline 0 with one stored action whose Type is 3 ("redis")
and no tree-state rows. -/
def dbGoodAction : Db :=
  { apps := [appW], treeStates := [], kvStates := [], setStates := [],
    actions := [actionRowW 3],
    nextAppId := 2, nextTreeStateId := 1, nextKVStateId := 1,
    nextSetStateId := 1, nextActionId := 2 }

/-- App 1 at mainline 0 with one stored action whose Type is 99. -/
def dbBadAction2 : Db :=
  { apps := [appW], treeStates := [], kvStates := [], setStates := [],
    actions := [actionRowW 99],
    nextAppId := 2, nextTreeStateId := 1, nextKVStateId := 1,
    nextSetStateId := 1, nextActionId := 2 }

def kvRowW (t : Int) (k v : String) : KVState :=
  { id := 1, stateType := t, appRefID := 1, version := 0, key := k, value := v,
    createdBy := 9, updatedBy := 9 }

/-- App 1 with one dotted-line-square kv row. -/
def dbDotted : Db :=
  { apps := [appW], treeStates := [],
    kvStates := [kvRowW KV_STATE_TYPE_DOTTED_LINE_SQUARE "k" "serialized"],
    setStates := [], actions := [],
    nextAppId := 2, nextTreeStateId := 1, nextKVStateId := 2,
    nextSetStateId := 1, nextActionId := 1 }

/-- A deserializer that returns a fixed non-string object — what a real
`json.Unmarshal` into `map[string]interface{}` would produce. -/
def uObjW : String → List (String × GoValue) := fun _ => [("a", GoValue.str "1")]

def uDepsW : String → List String := fun _ => ["input1"]

/-!
## Codec lemmas

The decoder inverts the encoder: `decodeIds (encodeIds l) = some l`.
-/

theorem natDigitsAux_irrel (n : Nat) : ∀ f₁ f₂, n < f₁ → n < f₂ →
    natDigitsAux f₁ n = natDigitsAux f₂ n := by
  induction n using Nat.strong_induction_on with
  | _ n ih =>
    intro f₁ f₂ h₁ h₂
    match f₁, f₂ with
    | g₁ + 1, g₂ + 1 =>
      rw [natDigitsAux, natDigitsAux]
      by_cases h10 : n < 10
      · rw [if_pos h10, if_pos h10]
      · rw [if_neg h10, if_neg h10, ih (n / 10) (by omega) g₁ g₂ (by omega) (by omega)]

theorem natDigits_eq (n : Nat) :
    natDigits n = if n < 10 then [Nat.digitChar n]
      else natDigits (n / 10) ++ [Nat.digitChar (n % 10)] := by
  rw [natDigits, natDigitsAux]
  by_cases h10 : n < 10
  · rw [if_pos h10, if_pos h10]
  · rw [if_neg h10, if_neg h10,
      natDigitsAux_irrel (n / 10) n (n / 10 + 1) (by omega) (by omega)]
    rfl

theorem digitChar_isDigit (d : Nat) (h : d < 10) : (Nat.digitChar d).isDigit = true := by
  interval_cases d <;> decide

theorem digitChar_toNat (d : Nat) (h : d < 10) : (Nat.digitChar d).toNat - 48 = d := by
  interval_cases d <;> decide

theorem digitChar_ne_zeroChar (d : Nat) (h : 0 < d) (h' : d < 10) :
    ¬ Nat.digitChar d = '0' := by
  interval_cases d <;> decide

theorem natDigits_digits (n : Nat) : ∀ c ∈ natDigits n, c.isDigit = true := by
  induction n using Nat.strong_induction_on with
  | _ n ih =>
    rw [natDigits_eq]
    by_cases h10 : n < 10
    · rw [if_pos h10]
      intro c hc
      rw [List.mem_singleton] at hc
      subst hc
      exact digitChar_isDigit n h10
    · rw [if_neg h10]
      intro c hc
      rcases List.mem_append.mp hc with h | h
      · exact ih (n / 10) (by omega) c h
      · rw [List.mem_singleton] at h
        subst h
        exact digitChar_isDigit _ (Nat.mod_lt _ (by omega))

theorem natDigits_ne_nil (n : Nat) : natDigits n ≠ [] := by
  rw [natDigits_eq]
  by_cases h10 : n < 10
  · rw [if_pos h10]; simp
  · rw [if_neg h10]; simp

theorem natDigits_small (n : Nat) (h : n < 10) : natDigits n = [Nat.digitChar n] := by
  rw [natDigits_eq, if_pos h]

theorem natDigits_head_ne_zero (n : Nat) (hn : n ≠ 0) :
    ¬ (natDigits n).headD 'x' = '0' := by
  induction n using Nat.strong_induction_on with
  | _ n ih =>
    rw [natDigits_eq]
    by_cases h10 : n < 10
    · rw [if_pos h10]
      simpa using digitChar_ne_zeroChar n (by omega) h10
    · rw [if_neg h10]
      have hne := natDigits_ne_nil (n / 10)
      cases hl : natDigits (n / 10) with
      | nil => exact absurd hl hne
      | cons a t =>
        simp only [List.cons_append, List.headD_cons]
        have := ih (n / 10) (by omega) (by omega)
        rw [hl] at this
        simpa using this

theorem digitsToNatAux_nil (acc : Nat) : digitsToNatAux acc [] = acc := rfl

theorem digitsToNatAux_cons (acc : Nat) (c : Char) (cs : List Char) :
    digitsToNatAux acc (c :: cs) = digitsToNatAux (acc * 10 + (c.toNat - 48)) cs := rfl

theorem digitsToNatAux_append (acc : Nat) (l₁ l₂ : List Char) :
    digitsToNatAux acc (l₁ ++ l₂) = digitsToNatAux (digitsToNatAux acc l₁) l₂ := by
  induction l₁ generalizing acc with
  | nil => rfl
  | cons c t ih => rw [List.cons_append, digitsToNatAux_cons, digitsToNatAux_cons, ih]

theorem digitsToNatAux_natDigits (n : Nat) : ∀ acc,
    digitsToNatAux acc (natDigits n) = acc * 10 ^ (natDigits n).length + n := by
  induction n using Nat.strong_induction_on with
  | _ n ih =>
    intro acc
    conv_lhs => rw [natDigits_eq]
    by_cases h10 : n < 10
    · rw [if_pos h10]
      rw [digitsToNatAux_cons, digitsToNatAux_nil, digitChar_toNat n h10,
        natDigits_small n h10]
      simp
    · rw [if_neg h10, digitsToNatAux_append, ih (n / 10) (by omega) acc]
      rw [digitsToNatAux_cons, digitsToNatAux_nil,
        digitChar_toNat _ (Nat.mod_lt _ (by omega))]
      have hlen : (natDigits n).length = (natDigits (n / 10)).length + 1 := by
        conv_lhs => rw [natDigits_eq, if_neg h10]
        simp
      rw [hlen]
      have : acc * 10 ^ ((natDigits (n / 10)).length + 1)
          = acc * 10 ^ (natDigits (n / 10)).length * 10 := by ring
      rw [this]
      have hdm := Nat.div_add_mod n 10
      omega

theorem digitsToNat_natDigits (n : Nat) : digitsToNat (natDigits n) = n := by
  have h := digitsToNatAux_natDigits n 0
  simpa [digitsToNat] using h

theorem readDigits_not_digit (c : Char) (cs : List Char) (h : c.isDigit = false) :
    readDigits (c :: cs) = ([], c :: cs) := by
  simp [readDigits, h]

theorem readDigits_cons_digit (c : Char) (cs : List Char) (h : c.isDigit = true) :
    readDigits (c :: cs) = ((c :: (readDigits cs).1, (readDigits cs).2)) := by
  simp [readDigits, h]

theorem readDigits_append (ds rest : List Char) (hds : ∀ c ∈ ds, c.isDigit = true)
    (hrest : ∀ c cs, rest = c :: cs → c.isDigit = false) :
    readDigits (ds ++ rest) = (ds, rest) := by
  induction ds with
  | nil =>
    rw [List.nil_append]
    cases rest with
    | nil => rfl
    | cons c cs => exact readDigits_not_digit c cs (hrest c cs rfl)
  | cons d t ih =>
    rw [List.cons_append, readDigits_cons_digit d _ (hds d (by simp)),
      ih (fun c hc => hds c (by simp [hc]))]

theorem parseUnsigned_natDigits (n : Nat) (rest : List Char)
    (hrest : ∀ c cs, rest = c :: cs → c.isDigit = false) :
    parseUnsigned (natDigits n ++ rest) = some (n, rest) := by
  simp only [parseUnsigned, readDigits_append _ _ (natDigits_digits n) hrest]
  rw [if_neg (natDigits_ne_nil n)]
  have hlz : ¬ (1 < (natDigits n).length ∧ (natDigits n).headD 'x' = '0') := by
    by_cases h10 : n < 10
    · rw [natDigits_small n h10]
      simp
    · have hz := natDigits_head_ne_zero n (by omega)
      tauto
  rw [if_neg hlz, digitsToNat_natDigits]


theorem parseInt_cons_not_dash (c : Char) (cs : List Char) (h : ¬ c = '-') :
    parseInt (c :: cs) = (match parseUnsigned (c :: cs) with
      | none => none
      | some (n, r) => some ((n : Int), r)) := by
  rw [parseInt, if_neg h]

theorem parseInt_intChars (i : Int) (rest : List Char)
    (hrest : ∀ c cs, rest = c :: cs → c.isDigit = false) :
    parseInt (intChars i ++ rest) = some (i, rest) := by
  rw [intChars]
  by_cases hneg : i < 0
  · rw [if_pos hneg, List.cons_append]
    show parseInt ('-' :: (natDigits i.natAbs ++ rest)) = some (i, rest)
    rw [parseInt, if_pos rfl, parseUnsigned_natDigits _ _ hrest]
    show some (-(i.natAbs : Int), rest) = some (i, rest)
    have habs : ((i.natAbs : Int)) = -i := by omega
    rw [habs, neg_neg]
  · rw [if_neg hneg]
    obtain ⟨c, cs, hD⟩ : ∃ c cs, natDigits i.toNat = c :: cs := by
      cases h : natDigits i.toNat with
      | nil => exact absurd h (natDigits_ne_nil _)
      | cons c cs => exact ⟨c, cs, rfl⟩
    have hcdig : c.isDigit = true := natDigits_digits i.toNat c (by rw [hD]; simp)
    have hcne : ¬ c = '-' := by
      intro h
      subst h
      exact absurd hcdig (by decide)
    have hredu : parseInt (natDigits i.toNat ++ rest) = some ((i.toNat : Int), rest) := by
      rw [hD, List.cons_append, parseInt_cons_not_dash c _ hcne, ← List.cons_append, ← hD,
        parseUnsigned_natDigits _ _ hrest]
    rw [hredu, Int.toNat_of_nonneg (by omega)]

theorem intChars_ne_nil (i : Int) : intChars i ≠ [] := by
  rw [intChars]
  by_cases h : i < 0
  · rw [if_pos h]
    simp
  · rw [if_neg h]
    exact natDigits_ne_nil _

theorem sepChars_cons_cons (a b : Int) (t : List Int) :
    sepChars (a :: b :: t) = intChars a ++ ',' :: sepChars (b :: t) := rfl

theorem sepChars_ne_nil (a : Int) (t : List Int) : sepChars (a :: t) ≠ [] := by
  cases t with
  | nil => exact intChars_ne_nil a
  | cons b t2 =>
    rw [sepChars_cons_cons]
    intro h
    rcases List.append_eq_nil.mp h with ⟨h1, h2⟩
    exact List.cons_ne_nil _ _ h2

theorem length_le_sepChars (l : List Int) : l.length ≤ (sepChars l).length + 1 := by
  induction l with
  | nil => simp
  | cons a t ih =>
    cases t with
    | nil => simp
    | cons b t2 =>
      rw [sepChars_cons_cons]
      have h1 : 1 ≤ (intChars a).length := by
        cases h : intChars a with
        | nil => exact absurd h (intChars_ne_nil a)
        | cons c cs => simp
      simp only [List.length_append, List.length_cons] at *
      omega

theorem parseSeq_sepChars (l : List Int) (hl : l ≠ []) :
    ∀ fuel, l.length ≤ fuel → parseSeq fuel (sepChars l ++ [']']) = some l := by
  induction l with
  | nil => exact absurd rfl hl
  | cons a t ih =>
    intro fuel hfuel
    obtain ⟨f, rfl⟩ : ∃ f, fuel = f + 1 := by
      cases fuel
      · simp at hfuel
      · exact ⟨_, rfl⟩
    cases t with
    | nil =>
      show parseSeq (f + 1) (intChars a ++ [']']) = some [a]
      rw [parseSeq, parseInt_intChars a [']']
        (by intro c cs h; injection h with h1 _; rw [← h1]; decide)]
      rfl
    | cons b t2 =>
      rw [sepChars_cons_cons, List.append_assoc, List.cons_append]
      rw [parseSeq, parseInt_intChars a (',' :: (sepChars (b :: t2) ++ [']']))
        (by intro c cs h; injection h with h1 _; rw [← h1]; decide)]
      show (match parseSeq f (sepChars (b :: t2) ++ [']']) with
        | none => none
        | some is => some (a :: is)) = some (a :: b :: t2)
      rw [ih (by simp) f (by simp only [List.length_cons] at hfuel ⊢; omega)]

theorem decodeIds_bracket (s : String) (rest : List Char) (h : s.data = '[' :: rest) :
    decodeIds s = if rest = [']'] then some [] else parseSeq rest.length rest := by
  rw [decodeIds, h]
  rw [if_neg (by intro hh; injection hh with h1 _; exact absurd h1 (by decide))]
  rfl

theorem decode_encode (l : List Int) : decodeIds (encodeIds l) = some l := by
  cases l with
  | nil => rfl
  | cons a t =>
    rw [decodeIds_bracket (encodeIds (a :: t)) (sepChars (a :: t) ++ [']']) rfl]
    rw [if_neg (by
      intro h
      have hlen := congrArg List.length h
      simp only [List.length_append, List.length_cons, List.length_nil] at hlen
      exact sepChars_ne_nil a t (List.length_eq_zero.mp (by omega)))]
    exact parseSeq_sepChars (a :: t) (by simp) _ (by
      have hle := length_le_sepChars (a :: t)
      simp only [List.length_append, List.length_cons, List.length_nil] at *
      omega)

/-!
## Identifier-map lemmas

`idPairs n0 olds` is the map phase 1 builds: the k-th retrieved row's old
identifier paired with the k-th assigned serial `n0 + k`.
-/

theorem mapLookup_not_mem (m : List (Int × Int)) (k : Int)
    (h : ∀ p ∈ m, ¬ p.1 = k) : mapLookup m k = 0 := by
  rw [mapLookup]
  have hf : m.find? (fun p => p.1 == k) = none := by
    rw [List.find?_eq_none]
    intro p hp
    simpa using h p hp
  rw [hf]

theorem find?_eq_some_of_unique {α : Type} (p : α → Bool) (l : List α) (x : α)
    (hx : x ∈ l) (hpx : p x = true) (huniq : ∀ y ∈ l, p y = true → y = x) :
    l.find? p = some x := by
  induction l with
  | nil => cases hx
  | cons a t ih =>
    by_cases hpa : p a = true
    · rw [List.find?_cons_of_pos _ hpa, huniq a (by simp) hpa]
    · rw [List.find?_cons_of_neg _ (by simpa using hpa)]
      rcases List.mem_cons.mp hx with h | h
      · subst h
        exact absurd hpx hpa
      · exact ih h (fun y hy hpy => huniq y (by simp [hy]) hpy)

theorem idPairs_mem (n0 : Int) (olds : List Int) (p : Int × Int) :
    p ∈ idPairs n0 olds ↔ ∃ j, j < olds.length ∧ p = (olds.getD j 0, n0 + (j : Int)) := by
  induction olds generalizing n0 with
  | nil => simp [idPairs]
  | cons a t ih =>
    rw [idPairs]
    simp only [List.mem_cons, ih (n0 + 1)]
    constructor
    · rintro (h | ⟨j, hj, hp⟩)
      · exact ⟨0, by simp, by simpa using h⟩
      · refine ⟨j + 1, by simpa using Nat.succ_lt_succ hj, ?_⟩
        rw [List.getD_cons_succ, hp]
        congr 1
        push_cast
        ring
    · rintro ⟨j, hj, hp⟩
      cases j with
      | zero => exact Or.inl (by simpa using hp)
      | succ j =>
        refine Or.inr ⟨j, by simpa using Nat.lt_of_succ_lt_succ hj, ?_⟩
        rw [List.getD_cons_succ] at hp
        rw [hp]
        congr 1
        push_cast
        ring

theorem mapLookup_idPairs (n0 : Int) (olds : List Int) (h1 : 1 ≤ n0)
    (hnd : olds.Nodup) (i : Nat) (hi : i < olds.length) (x : Int) :
    mapLookup (idPairs n0 olds) x = n0 + (i : Int) ↔ x = olds.getD i 0 := by
  constructor
  · intro hL
    rw [mapLookup] at hL
    cases hf : (idPairs n0 olds).find? (fun p => p.1 == x) with
    | none =>
      rw [hf] at hL
      have : (0 : Int) = n0 + (i : Int) := hL
      omega
    | some q =>
      rw [hf] at hL
      have hqmem := List.mem_of_find?_eq_some hf
      have hqx : q.1 = x := by simpa using List.find?_some hf
      rcases (idPairs_mem n0 olds q).mp hqmem with ⟨j, hj, hq⟩
      have hji : j = i := by
        rw [hq] at hL
        simp only at hL
        omega
      rw [← hqx, hq]
      simp [hji]
  · intro hx
    subst hx
    rw [mapLookup, find?_eq_some_of_unique (fun p => p.1 == olds.getD i 0) _
      (olds.getD i 0, n0 + (i : Int)) ((idPairs_mem _ _ _).mpr ⟨i, hi, rfl⟩) (by simp) ?_]
    intro y hy hpy
    rcases (idPairs_mem n0 olds y).mp hy with ⟨j, hj, hyv⟩
    have hget : olds.getD j 0 = olds.getD i 0 := by
      rw [hyv] at hpy
      simpa using hpy
    have hji : j = i := by
      rw [List.getD_eq_getElem olds 0 hj, List.getD_eq_getElem olds 0 hi] at hget
      exact (List.Nodup.getElem_inj_iff hnd).mp hget
    rw [hyv, hji]

/-!
## Clone-loop characterization

Phase 1 appends the staged rows carrying the serials `n0, n0+1, ...` and
returns the identifier map `idPairs`; phase 2 rewrites exactly the created
rows (their identifiers are fresh, so no pre-existing row is touched).
-/

theorem relinkTreeState_id (m : List (Int × Int)) (r : TreeState) :
    (relinkTreeState m r).id = r.id := rfl

theorem map_id_of_eq {α : Type} (l : List α) (f : α → α) (h : ∀ x ∈ l, f x = x) :
    l.map f = l := by
  induction l with
  | nil => rfl
  | cons a t ih => rw [List.map_cons, h a (by simp), ih (fun x hx => h x (by simp [hx]))]

theorem assignIds_length (n0 : Int) (l : List TreeState) :
    (assignIds n0 l).length = l.length := by
  induction l generalizing n0 with
  | nil => rfl
  | cons r t ih => simp [assignIds, ih]

theorem assignIds_getD (n0 : Int) (l : List TreeState) (i : Nat) (hi : i < l.length) :
    (assignIds n0 l).getD i dtree = { l.getD i dtree with id := n0 + (i : Int) } := by
  induction l generalizing n0 i with
  | nil => simp at hi
  | cons r t ih =>
    cases i with
    | zero => simp [assignIds]
    | succ i =>
      rw [assignIds, List.getD_cons_succ, List.getD_cons_succ,
        ih (n0 + 1) i (Nat.lt_of_succ_lt_succ hi)]
      simp only [TreeState.mk.injEq, and_true, true_and]
      omega

theorem assignIds_id_bound (n0 : Int) (l : List TreeState) (r : TreeState)
    (h : r ∈ assignIds n0 l) : n0 ≤ r.id ∧ r.id < n0 + (l.length : Int) := by
  induction l generalizing n0 with
  | nil => cases h
  | cons a t ih =>
    rcases List.mem_cons.mp h with h | h
    · subst h
      simp only [List.length_cons]
      constructor
      · exact le_refl _
      · omega
    · have := ih (n0 + 1) h
      simp only [List.length_cons]
      omega

theorem assignIds_fields (n0 : Int) (l : List TreeState) (r : TreeState)
    (h : r ∈ assignIds n0 l) : ∃ x ∈ l, ∃ k : Int, r = { x with id := k } := by
  induction l generalizing n0 with
  | nil => cases h
  | cons a t ih =>
    rcases List.mem_cons.mp h with h | h
    · exact ⟨a, by simp, n0, h⟩
    · rcases ih (n0 + 1) h with ⟨x, hx, k, hk⟩
      exact ⟨x, by simp [hx], k, hk⟩

theorem assignIds_ids_nodup (n0 : Int) (l : List TreeState) :
    ((assignIds n0 l).map (fun r => r.id)).Nodup := by
  induction l generalizing n0 with
  | nil => simp [assignIds]
  | cons a t ih =>
    rw [assignIds, List.map_cons, List.nodup_cons]
    refine ⟨?_, ih (n0 + 1)⟩
    intro hmem
    rcases List.mem_map.mp hmem with ⟨r, hr, hid⟩
    have hb := assignIds_id_bound (n0 + 1) t r hr
    simp only at hid
    omega

theorem createStaged_spec : ∀ (ps : List (Int × TreeState)) (db : Db),
    createStagedTreeStates db ps
      = ({ db with
             treeStates := db.treeStates ++ assignIds db.nextTreeStateId (ps.map Prod.snd),
             nextTreeStateId := db.nextTreeStateId + (ps.length : Int) },
         (idPairs db.nextTreeStateId (ps.map Prod.fst),
          assignIds db.nextTreeStateId (ps.map Prod.snd))) := by
  intro ps
  induction ps with
  | nil =>
    intro db
    simp only [createStagedTreeStates, List.map_nil, assignIds, idPairs, List.append_nil,
      List.length_nil, Nat.cast_zero, add_zero]
  | cons p rest ih =>
    intro db
    obtain ⟨oldID, row⟩ := p
    rw [createStagedTreeStates]
    simp only [createTreeState]
    rw [ih]
    simp only [List.map_cons, assignIds, idPairs, List.length_cons, Prod.mk.injEq,
      Db.mk.injEq, List.append_assoc, List.singleton_append, true_and, and_true]
    push_cast
    ring

theorem foldl_relink_update (m : List (Int × Int)) :
    ∀ (post pre : List TreeState) (db : Db),
      db.treeStates = pre ++ post →
      (∀ r ∈ post, ∀ s ∈ pre, ¬ s.id = r.id) →
      (post.map (fun r => r.id)).Nodup →
      post.foldl (fun acc r => updateTreeState acc (relinkTreeState m r)) db
        = { db with treeStates := pre ++ post.map (relinkTreeState m) } := by
  intro post
  induction post with
  | nil =>
    intro pre db hdb _ _
    rw [List.append_nil] at hdb
    rw [List.foldl_nil, List.map_nil, List.append_nil, ← hdb]
  | cons a t ih =>
    intro pre db hdb hfresh hnd
    rw [List.foldl_cons]
    rw [List.map_cons, List.nodup_cons] at hnd
    have hstep : updateTreeState db (relinkTreeState m a)
        = { db with treeStates := (pre ++ [relinkTreeState m a]) ++ t } := by
      rw [updateTreeState, hdb]
      have hmap : (pre ++ a :: t).map
          (fun s => if s.id == (relinkTreeState m a).id then relinkTreeState m a else s)
          = pre ++ relinkTreeState m a :: t := by
        rw [List.map_append, List.map_cons]
        rw [map_id_of_eq pre _ (fun s hs => by
          rw [relinkTreeState_id]
          simp only [beq_iff_eq]
          rw [if_neg (hfresh a (by simp) s hs)])]
        rw [relinkTreeState_id]
        simp only [beq_self_eq_true, if_true]
        rw [map_id_of_eq t _ (fun s hs => by
          simp only [beq_iff_eq]
          rw [if_neg (by
            intro hcontra
            exact hnd.1 (List.mem_map.mpr ⟨s, hs, hcontra⟩))])]
      rw [hmap, List.append_assoc, List.singleton_append]
    rw [hstep,
      ih (pre ++ [relinkTreeState m a]) _ rfl
        (fun r hr s hs => by
          rcases List.mem_append.mp hs with h | h
          · exact hfresh r (by simp [hr]) s h
          · rw [List.mem_singleton] at h
            subst h
            rw [relinkTreeState_id]
            intro hcontra
            exact hnd.1 (List.mem_map.mpr ⟨r, hr, hcontra.symm⟩))
        hnd.2]
    simp [List.append_assoc]

theorem copyAllTreeState_spec (db : Db) (appA appB user : Int)
    (hlt : ∀ r ∈ db.treeStates, r.id < db.nextTreeStateId) :
    copyAllTreeState db appA appB user
      = { db with
            treeStates := db.treeStates ++
              (assignIds db.nextTreeStateId
                ((srcRows db appA).map (fun r =>
                  { r with id := 0, appRefID := appB, version := APP_EDIT_VERSION,
                           createdBy := user, updatedBy := user }))).map
                (relinkTreeState
                  (idPairs db.nextTreeStateId ((srcRows db appA).map (fun r => r.id)))),
            nextTreeStateId := db.nextTreeStateId + ((srcRows db appA).length : Int) } := by
  simp only [copyAllTreeState, srcRows]
  rw [createStaged_spec]
  rw [foldl_relink_update _ _ db.treeStates _ rfl
    (fun r hr s hs => by
      have hb := assignIds_id_bound _ _ r hr
      have hl := hlt s hs
      omega)
    (assignIds_ids_nodup _ _)]
  simp [List.map_fst_zip, List.map_snd_zip, List.length_zip]

theorem clonedRows_eq (db : Db) (appA appB user : Int)
    (hlt : ∀ r ∈ db.treeStates, r.id < db.nextTreeStateId)
    (hfr : ∀ r ∈ db.treeStates, ¬ r.appRefID = appB) :
    clonedRows db appA appB user
      = (assignIds db.nextTreeStateId
          ((srcRows db appA).map (fun r =>
            { r with id := 0, appRefID := appB, version := APP_EDIT_VERSION,
                     createdBy := user, updatedBy := user }))).map
          (relinkTreeState
            (idPairs db.nextTreeStateId ((srcRows db appA).map (fun r => r.id)))) := by
  rw [clonedRows, copyAllTreeState_spec db appA appB user hlt, retrieveAllTypeTreeStatesByApp]
  simp only []
  rw [List.filter_append]
  rw [List.filter_eq_nil_iff.mpr ?hpre, List.nil_append, List.filter_eq_self.mpr ?hpost]
  case hpre =>
    intro r hr
    simp only [Bool.and_eq_true, beq_iff_eq, not_and]
    intro happ
    exact absurd happ (hfr r hr)
  case hpost =>
    intro r hr
    rcases List.mem_map.mp hr with ⟨c, hc, hrel⟩
    rcases assignIds_fields _ _ c hc with ⟨x, hx, k, hk⟩
    rcases List.mem_map.mp hx with ⟨s, hs, hstage⟩
    subst hrel
    subst hk
    subst hstage
    simp [relinkTreeState]

theorem getD_map {α β : Type} (f : α → β) (l : List α) (i : Nat) (d : β) (e : α)
    (h : i < l.length) : (l.map f).getD i d = f (l.getD i e) := by
  rw [List.getD_eq_getElem _ _ (by simpa using h), List.getD_eq_getElem _ _ h]
  simp

theorem srcRows_ids_nodup (db : Db) (appA : Int)
    (hnd : (db.treeStates.map (fun r => r.id)).Nodup) :
    ((srcRows db appA).map (fun r => r.id)).Nodup := by
  have hsub : List.Sublist ((srcRows db appA).map (fun r => r.id))
      (db.treeStates.map (fun r => r.id)) :=
    (List.filter_sublist _).map _
  exact hnd.sublist hsub

theorem clonedRows_getD (db : Db) (appA appB user : Int) (i : Nat)
    (hlt : ∀ r ∈ db.treeStates, r.id < db.nextTreeStateId)
    (hfr : ∀ r ∈ db.treeStates, ¬ r.appRefID = appB)
    (hi : i < (srcRows db appA).length) :
    (clonedRows db appA appB user).getD i dtree
      = relinkTreeState
          (idPairs db.nextTreeStateId ((srcRows db appA).map (fun r => r.id)))
          { (srcRows db appA).getD i dtree with
              id := db.nextTreeStateId + (i : Int), appRefID := appB,
              version := APP_EDIT_VERSION, createdBy := user, updatedBy := user } := by
  rw [clonedRows_eq db appA appB user hlt hfr]
  rw [getD_map _ _ i dtree dtree (by rw [assignIds_length, List.length_map]; exact hi)]
  rw [assignIds_getD _ _ i (by rw [List.length_map]; exact hi)]
  rw [getD_map _ _ i dtree dtree hi]

theorem decodeIds_empty : decodeIds "" = none := rfl

/-- C2: for every source set of tree-state rows of one (app, version) —
under the store invariants that row identifiers are distinct positive
serials below the next-serial counter and that the target app holds no rows
yet — the two-phase remap of `copyAllTreeState` (create all rows with
cleared identifiers building the old-to-new map `idPairs`, then rewrite
every cloned row's parent reference and children-reference list through the
map) produces a cloned row set isomorphic to the source tree: same node
count, same parent adjacency, same children adjacency, and every cloned
identifier distinct from every source identifier. -/
theorem copyAllTreeState_isomorphic (db : Db) (appA appB user : Int)
    (hnd : (db.treeStates.map (fun r => r.id)).Nodup)
    (hlt : ∀ r ∈ db.treeStates, r.id < db.nextTreeStateId)
    (hpos : 1 ≤ db.nextTreeStateId)
    (hfr : ∀ r ∈ db.treeStates, ¬ r.appRefID = appB) :
    (clonedRows db appA appB user).length = (srcRows db appA).length
    ∧ (∀ i, i < (clonedRows db appA appB user).length →
        ¬ ((clonedRows db appA appB user).getD i dtree).id
            ∈ (srcRows db appA).map (fun r => r.id))
    ∧ (∀ i j, i < (srcRows db appA).length → j < (srcRows db appA).length →
        (((clonedRows db appA appB user).getD j dtree).parentNodeRefID
            = ((clonedRows db appA appB user).getD i dtree).id
          ↔ ((srcRows db appA).getD j dtree).parentNodeRefID
            = ((srcRows db appA).getD i dtree).id))
    ∧ (∀ i j, i < (srcRows db appA).length → j < (srcRows db appA).length →
        (((clonedRows db appA appB user).getD i dtree).id
            ∈ decodedChildren ((clonedRows db appA appB user).getD j dtree)
          ↔ ((srcRows db appA).getD i dtree).id
            ∈ decodedChildren ((srcRows db appA).getD j dtree))) := by
  have hlen : (clonedRows db appA appB user).length = (srcRows db appA).length := by
    rw [clonedRows_eq db appA appB user hlt hfr, List.length_map, assignIds_length,
      List.length_map]
  have holdnd : ((srcRows db appA).map (fun r => r.id)).Nodup := srcRows_ids_nodup db appA hnd
  have holdsget : ∀ i, i < (srcRows db appA).length →
      ((srcRows db appA).map (fun r => r.id)).getD i 0
        = ((srcRows db appA).getD i dtree).id :=
    fun i hi => getD_map _ _ i 0 dtree hi
  have hclid : ∀ i, i < (srcRows db appA).length →
      ((clonedRows db appA appB user).getD i dtree).id = db.nextTreeStateId + (i : Int) := by
    intro i hi
    rw [clonedRows_getD db appA appB user i hlt hfr hi]
    rfl
  have hclpar : ∀ j, j < (srcRows db appA).length →
      ((clonedRows db appA appB user).getD j dtree).parentNodeRefID
        = mapLookup (idPairs db.nextTreeStateId ((srcRows db appA).map (fun r => r.id)))
            ((srcRows db appA).getD j dtree).parentNodeRefID := by
    intro j hj
    rw [clonedRows_getD db appA appB user j hlt hfr hj]
    rfl
  have hclch : ∀ j, j < (srcRows db appA).length →
      ((clonedRows db appA appB user).getD j dtree).childrenNodeRefIDs
        = convertLink ((srcRows db appA).getD j dtree).childrenNodeRefIDs
            (idPairs db.nextTreeStateId ((srcRows db appA).map (fun r => r.id))) := by
    intro j hj
    rw [clonedRows_getD db appA appB user j hlt hfr hj]
    rfl
  have hkey : ∀ i, i < (srcRows db appA).length → ∀ x : Int,
      (mapLookup (idPairs db.nextTreeStateId ((srcRows db appA).map (fun r => r.id))) x
          = db.nextTreeStateId + (i : Int)
        ↔ x = ((srcRows db appA).getD i dtree).id) := by
    intro i hi x
    rw [← holdsget i hi]
    exact mapLookup_idPairs db.nextTreeStateId _ hpos holdnd i (by simpa using hi) x
  refine ⟨hlen, ?_, ?_, ?_⟩
  · intro i hi
    rw [hlen] at hi
    rw [hclid i hi]
    intro hmem
    rcases List.mem_map.mp hmem with ⟨r, hr, hid⟩
    have hrdb : r ∈ db.treeStates := List.mem_of_mem_filter hr
    have := hlt r hrdb
    have hnn : (0 : Int) ≤ (i : Int) := Int.natCast_nonneg i
    omega
  · intro i j hi hj
    rw [hclpar j hj, hclid i hi, hkey i hi]
  · intro i j hi hj
    rw [hclid i hi]
    rw [decodedChildren, decodedChildren, hclch j hj]
    cases hdec : decodeIds ((srcRows db appA).getD j dtree).childrenNodeRefIDs with
    | none =>
      rw [convertLink, hdec]
      rw [decodeIds_empty]
      simp
    | some ch =>
      rw [convertLink, hdec, decode_encode]
      simp only [Option.getD_some]
      constructor
      · intro hmem
        rcases List.mem_map.mp hmem with ⟨y, hy, hlook⟩
        rw [(hkey i hi y).mp hlook] at hy
        exact hy
      · intro hmem
        exact List.mem_map.mpr ⟨_, hmem, (hkey i hi _).mpr rfl⟩

/-- C2 witness: the three-node component tree of `dbIso` cloned into app 2. -/
theorem copyAllTreeState_isomorphic_witness :
    ((dbIso.treeStates.map (fun r => r.id)).Nodup
      ∧ (∀ r ∈ dbIso.treeStates, r.id < dbIso.nextTreeStateId)
      ∧ 1 ≤ dbIso.nextTreeStateId
      ∧ (∀ r ∈ dbIso.treeStates, ¬ r.appRefID = 2))
    ∧ ((clonedRows dbIso 1 2 9).length = (srcRows dbIso 1).length
      ∧ (∀ i, i < (clonedRows dbIso 1 2 9).length →
          ¬ ((clonedRows dbIso 1 2 9).getD i dtree).id
              ∈ (srcRows dbIso 1).map (fun r => r.id))
      ∧ (∀ i j, i < (srcRows dbIso 1).length → j < (srcRows dbIso 1).length →
          (((clonedRows dbIso 1 2 9).getD j dtree).parentNodeRefID
              = ((clonedRows dbIso 1 2 9).getD i dtree).id
            ↔ ((srcRows dbIso 1).getD j dtree).parentNodeRefID
              = ((srcRows dbIso 1).getD i dtree).id))
      ∧ (∀ i j, i < (srcRows dbIso 1).length → j < (srcRows dbIso 1).length →
          (((clonedRows dbIso 1 2 9).getD i dtree).id
              ∈ decodedChildren ((clonedRows dbIso 1 2 9).getD j dtree)
            ↔ ((srcRows dbIso 1).getD i dtree).id
              ∈ decodedChildren ((srcRows dbIso 1).getD j dtree)))) :=
  ⟨⟨by decide, by decide, by decide, by decide⟩,
   copyAllTreeState_isomorphic dbIso 1 2 9 (by decide) (by decide) (by decide) (by decide)⟩

/-- C7: encoding an ordered identifier list as the serialized children list
and translating it through an identity mapping via the
decode–translate–encode pipeline of `convertLink` yields the original
encoded string, with no element loss or reordering. -/
theorem convertLink_roundtrip (l : List Int) (m : List (Int × Int))
    (hid : ∀ x ∈ l, mapLookup m x = x) :
    convertLink (encodeIds l) m = encodeIds l := by
  unfold convertLink
  rw [decode_encode]
  show encodeIds (l.map (fun oldID => mapLookup m oldID)) = encodeIds l
  rw [map_id_of_eq l _ hid]

theorem convertLink_roundtrip_witness :
    (∀ x ∈ [(7 : Int), 8, -3], mapLookup [(7, 7), (8, 8), (-3, -3)] x = x)
    ∧ convertLink (encodeIds [7, 8, -3]) [(7, 7), (8, 8), (-3, -3)]
        = encodeIds [7, 8, -3] :=
  ⟨by decide, convertLink_roundtrip [7, 8, -3] [(7, 7), (8, 8), (-3, -3)] (by decide)⟩

/-- C6: during tree relinking, a reference with no entry in the old-to-new
map translates to the zero sentinel (the Go map zero value) rather than
raising; in particular the root's parent sentinel 0 — never a key, the keys
being row identifiers — always translates to 0.  The relink pass rewrites a
cloned row's parent reference exactly through this lookup and its children
list exactly through `convertLink`, which translates entrywise. -/
theorem convertLink_unmapped_zero (s : String) (l : List Int) (m : List (Int × Int))
    (x : Int) (r : TreeState)
    (hdec : decodeIds s = some l) (hx : x ∈ l)
    (hmx : ∀ p ∈ m, ¬ p.1 = x) (hm0 : ∀ p ∈ m, ¬ p.1 = 0) :
    mapLookup m x = 0
    ∧ mapLookup m 0 = 0
    ∧ convertLink s m = encodeIds (l.map (fun y => mapLookup m y))
    ∧ (relinkTreeState m r).parentNodeRefID = mapLookup m r.parentNodeRefID
    ∧ (relinkTreeState m r).childrenNodeRefIDs = convertLink r.childrenNodeRefIDs m :=
  ⟨mapLookup_not_mem m x hmx, mapLookup_not_mem m 0 hm0,
   by unfold convertLink; rw [hdec], rfl, rfl⟩

theorem convertLink_unmapped_zero_witness :
    (decodeIds "[5,6]" = some [5, 6] ∧ (5 : Int) ∈ [(5 : Int), 6]
      ∧ (∀ p ∈ [((6 : Int), (9 : Int))], ¬ p.1 = 5)
      ∧ (∀ p ∈ [((6 : Int), (9 : Int))], ¬ p.1 = 0))
    ∧ (mapLookup [(6, 9)] 5 = 0
      ∧ mapLookup [(6, 9)] 0 = 0
      ∧ convertLink "[5,6]" [(6, 9)] = encodeIds ([5, 6].map (fun y => mapLookup [(6, 9)] y))
      ∧ (relinkTreeState [(6, 9)] dtree).parentNodeRefID
          = mapLookup [(6, 9)] dtree.parentNodeRefID
      ∧ (relinkTreeState [(6, 9)] dtree).childrenNodeRefIDs
          = convertLink dtree.childrenNodeRefIDs [(6, 9)]) :=
  ⟨⟨by decide, by decide, by decide, by decide⟩,
   convertLink_unmapped_zero "[5,6]" [5, 6] [(6, 9)] 5 dtree
     (by decide) (by decide) (by decide) (by decide)⟩

/-- C8 counterexample: `oops` is not a well-formed encoding; `convertLink`
returns the empty string `""`, which is not the encoding `[]` of an empty
list as the claim states. -/
theorem convertLink_malformed_cex :
    decodeIds "oops" = none
    ∧ convertLink "oops" [] = ""
    ∧ ¬ convertLink "oops" [] = encodeIds [] := by
  refine ⟨rfl, rfl, ?_⟩
  decide

/-- C8 amended: for every input that is not a well-formed encoding of an
integer-identifier list (the decoder errors), `convertLink` yields the empty
string `""` — not the encoding of an empty list — and propagates no partial
parse of the malformed input. -/
theorem convertLink_malformed_empty (s : String) (m : List (Int × Int))
    (h : decodeIds s = none) : convertLink s m = "" := by
  unfold convertLink
  rw [h]

theorem convertLink_malformed_empty_witness :
    decodeIds "zz" = none ∧ convertLink "zz" [(1, 2)] = "" :=
  ⟨by decide, convertLink_malformed_empty "zz" [(1, 2)] (by decide)⟩

/-!
## Coordinator lemmas

The release clone helpers touch only their own state table, so the apps
table is unchanged until the final counter update.
-/

theorem foldl_update_apps (m : List (Int × Int)) (l : List TreeState) :
    ∀ db : Db,
      (l.foldl (fun acc r => updateTreeState acc (relinkTreeState m r)) db).apps = db.apps := by
  induction l with
  | nil =>
    intro db
    rfl
  | cons a t ih =>
    intro db
    rw [List.foldl_cons, ih]
    rfl

theorem releaseTreeStateByApp_apps (db : Db) (a v : Int) :
    (releaseTreeStateByApp db a v).apps = db.apps := by
  unfold releaseTreeStateByApp
  rw [foldl_update_apps, createStaged_spec]

theorem createKVStates_apps (l : List KVState) :
    ∀ db : Db, (createKVStates db l).apps = db.apps := by
  induction l with
  | nil =>
    intro db
    rfl
  | cons a t ih =>
    intro db
    rw [createKVStates, ih]

theorem createSetStates_apps (l : List SetState) :
    ∀ db : Db, (createSetStates db l).apps = db.apps := by
  induction l with
  | nil =>
    intro db
    rfl
  | cons a t ih =>
    intro db
    rw [createSetStates, ih]

theorem createActions_apps (l : List ActionRecord) :
    ∀ db : Db, (createActions db l).apps = db.apps := by
  induction l with
  | nil =>
    intro db
    rfl
  | cons a t ih =>
    intro db
    rw [createActions, ih]

theorem releaseKVStateByApp_apps (db : Db) (a v : Int) :
    (releaseKVStateByApp db a v).apps = db.apps := by
  unfold releaseKVStateByApp
  rw [createKVStates_apps]

theorem releaseSetStateByApp_apps (db : Db) (a v : Int) :
    (releaseSetStateByApp db a v).apps = db.apps := by
  unfold releaseSetStateByApp
  rw [createSetStates_apps]

theorem releaseActionsByApp_apps (db : Db) (a v : Int) :
    (releaseActionsByApp db a v).apps = db.apps := by
  unfold releaseActionsByApp
  rw [createActions_apps]

theorem find?_id_map_update (l : List App) (appID : Int) (a a2 : App)
    (hfind : l.find? (fun r => r.id == appID) = some a) (hid : a2.id = appID) :
    (l.map (fun r => if r.id == a2.id then a2 else r)).find? (fun r => r.id == appID)
      = some a2 := by
  induction l with
  | nil => simp at hfind
  | cons b t ih =>
    rw [List.map_cons]
    by_cases hb : b.id = appID
    · rw [if_pos (by simp [hid, hb])]
      exact List.find?_cons_of_pos _ (by simp [hid])
    · rw [List.find?_cons_of_neg _ (by simpa using hb)] at hfind
      rw [if_neg (by simp only [beq_iff_eq, hid]; exact hb)]
      rw [List.find?_cons_of_neg _ (by simpa using hb)]
      exact ih hfind

theorem retrieveAppByID_updateApp (db db0 : Db) (appID : Int) (a a2 : App)
    (happs : db.apps = db0.apps)
    (hfind : retrieveAppByID db0 appID = some a) (hid : a2.id = appID) :
    retrieveAppByID (updateApp db a2) appID = some a2 := by
  unfold retrieveAppByID updateApp at *
  rw [happs]
  exact find?_id_map_update db0.apps appID a a2 hfind hid

/-- C3: a successful `ReleaseApp` on an app stored with mainlineVersion v
returns v+1 (with the nil error) and leaves the app stored with
mainlineVersion and releaseVersion both v+1 — an advance by exactly 1. -/
theorem ReleaseApp_advances (db : Db) (appID : Int) (a : App)
    (hfind : retrieveAppByID db appID = some a) :
    (ReleaseApp db appID).1 = (a.mainlineVersion + 1, none)
    ∧ retrieveAppByID (ReleaseApp db appID).2 appID
        = some { a with mainlineVersion := a.mainlineVersion + 1,
                        releaseVersion := a.mainlineVersion + 1 } := by
  unfold ReleaseApp
  rw [hfind]
  refine ⟨rfl, ?_⟩
  exact retrieveAppByID_updateApp _ db appID a _
    (by rw [releaseActionsByApp_apps, releaseSetStateByApp_apps, releaseKVStateByApp_apps,
      releaseTreeStateByApp_apps])
    hfind (by simpa using List.find?_some hfind)

theorem ReleaseApp_advances_witness :
    retrieveAppByID dbIso 1 = some appW
    ∧ ((ReleaseApp dbIso 1).1 = (appW.mainlineVersion + 1, none)
      ∧ retrieveAppByID (ReleaseApp dbIso 1).2 1
          = some { appW with mainlineVersion := appW.mainlineVersion + 1,
                             releaseVersion := appW.mainlineVersion + 1 }) :=
  ⟨by decide, ReleaseApp_advances dbIso 1 appW (by decide)⟩

/-- C1: `ReleaseApp` on a store holding no app with the requested identifier
— the app read fails — evaluates to the pair `(-1, nil)` and leaves the
store unchanged: the Go `return -1, nil` reports a nil error for a failed
release (and both coordinators discard every clone sub-step error with
`_ =`), so the failure is not surfaced to the caller. -/
theorem ReleaseApp_nil_error_on_failed_read :
    (ReleaseApp dbEmpty 7).1 = (-1, none) ∧ (ReleaseApp dbEmpty 7).2 = dbEmpty :=
  ⟨rfl, rfl⟩

/-!
## Editor assembly lemmas
-/

theorem mapOpt_isSome_iff {α β : Type} (f : α → Option β) (l : List α) :
    (mapOpt f l).isSome = true ↔ ∀ a ∈ l, (f a).isSome = true := by
  induction l with
  | nil => simp [mapOpt]
  | cons a t ih =>
    rw [mapOpt]
    cases hfa : f a with
    | none =>
      constructor
      · intro h
        exact absurd h (by simp)
      · intro h
        have ha := h a (by simp)
        rw [hfa] at ha
        exact absurd ha (by simp)
    | some b =>
      cases hmt : mapOpt f t with
      | none =>
        constructor
        · intro h
          exact absurd h (by simp)
        · intro h
          have ht := ih.mpr (fun x hx => h x (by simp [hx]))
          rw [hmt] at ht
          exact absurd ht (by simp)
      | some bs =>
        constructor
        · intro _
          intro x hx
          rcases List.mem_cons.mp hx with h | h
          · rw [h, hfa]
            rfl
          · exact ih.mp (by rw [hmt]; rfl) x h
        · intro _
          rfl

theorem typeArrayIndex_isSome (t : Int) :
    (typeArrayIndex t).isSome = true ↔ 0 ≤ t ∧ t < 22 := by
  unfold typeArrayIndex
  by_cases h : 0 ≤ t ∧ t.toNat < type_array.length
  · rw [dif_pos h]
    simp only [Option.isSome_some, true_iff]
    have hlen : type_array.length = 22 := rfl
    rw [hlen] at h
    omega
  · rw [dif_neg h]
    simp only [Option.isSome_none, Bool.false_eq_true, false_iff]
    intro hcon
    apply h
    have hlen : type_array.length = 22 := rfl
    rw [hlen]
    omega

theorem formatActions_isSome_iff (db : Db) (appID version : Int) :
    (formatActions db appID version).isSome = true
      ↔ ∀ a ∈ retrieveActionsByAppVersion db appID version, 0 ≤ a.type ∧ a.type < 22 := by
  unfold formatActions
  rw [mapOpt_isSome_iff]
  refine forall_congr' (fun a => forall_congr' (fun ha => ?_))
  rw [← typeArrayIndex_isSome a.type]
  cases h : typeArrayIndex a.type with
  | none => simp
  | some ty => simp

/-- C9: `formatActions` indexes the fixed 22-entry `type_array` with each
stored action's integer Type field without a bounds check: the assembly
completes exactly when every retrieved action's Type lies in the range 0 to
21, and a store holding any action with a Type outside that range makes it
evaluate to the out-of-bounds panic (`none`) instead of an error value. -/
theorem formatActions_total_iff (db : Db) (appID version : Int) :
    ((formatActions db appID version).isSome = true
      ↔ ∀ a ∈ retrieveActionsByAppVersion db appID version, 0 ≤ a.type ∧ a.type < 22)
    ∧ (formatActions db appID version = none
      ↔ ¬ ∀ a ∈ retrieveActionsByAppVersion db appID version, 0 ≤ a.type ∧ a.type < 22) := by
  have h := formatActions_isSome_iff db appID version
  refine ⟨h, ?_⟩
  rw [← h]
  cases formatActions db appID version <;> simp

/-- C4 counterexample: app 1 exists (retrieved with nonzero id) at
mainlineVersion 0 and version 0 is requested — within the claimed
always-succeeds range — yet `GetMegaData` evaluates to the panic `none`
(the store holds an action whose Type is 22), not to a success. -/
theorem GetMegaData_panic_cex :
    retrieveAppByID dbBadAction 1 = some appW
    ∧ appW.mainlineVersion = 0
    ∧ GetMegaData uDepsW uObjW dbBadAction 1 0 = none :=
  ⟨rfl, rfl, rfl⟩

/-- C4 amended: provided additionally that every retrieved action's Type is
in range 0..21 (otherwise the assembly panics — the hazard of C9), for an
existing app `GetMegaData` fails with the not-found error exactly when the
requested version exceeds the app's mainlineVersion, and succeeds —
version 0 included — exactly when the version is at most mainlineVersion. -/
theorem GetMegaData_version_gate (uDeps : String → List String)
    (uObj : String → List (String × GoValue)) (db : Db) (appID version : Int) (a : App)
    (hfind : retrieveAppByID db appID = some a) (hid : ¬ a.id = 0)
    (hact : ∀ act ∈ retrieveActionsByAppVersion db appID version,
      0 ≤ act.type ∧ act.type < 22) :
    (GetMegaData uDeps uObj db appID version = some (Except.error "content not found")
      ↔ a.mainlineVersion < version)
    ∧ ((∃ ed, GetMegaData uDeps uObj db appID version = some (Except.ok ed))
      ↔ version ≤ a.mainlineVersion) := by
  unfold GetMegaData fetchEditor
  rw [hfind]
  simp only []
  by_cases hv : a.mainlineVersion < version
  · rw [if_pos (Or.inr hv)]
    refine ⟨⟨fun _ => hv, fun _ => rfl⟩, ⟨?_, fun h => absurd h (by omega)⟩⟩
    rintro ⟨ed, hed⟩
    injection hed with h2
    exact Except.noConfusion h2
  · rw [if_neg ((not_or).mpr ⟨hid, hv⟩)]
    have hsome := (formatActions_isSome_iff db appID version).mpr hact
    obtain ⟨acts, hacts⟩ := Option.isSome_iff_exists.mp hsome
    rw [hacts]
    refine ⟨⟨fun h => ?_, fun h => absurd h hv⟩, ⟨fun _ => by omega, fun _ => ⟨_, rfl⟩⟩⟩
    injection h with h2
    exact Except.noConfusion h2

theorem GetMegaData_version_gate_witness :
    (retrieveAppByID dbGoodAction 1 = some appW
      ∧ ¬ appW.id = 0
      ∧ (∀ act ∈ retrieveActionsByAppVersion dbGoodAction 1 0,
          0 ≤ act.type ∧ act.type < 22))
    ∧ ((GetMegaData uDepsW uObjW dbGoodAction 1 0 = some (Except.error "content not found")
        ↔ appW.mainlineVersion < 0)
      ∧ ((∃ ed, GetMegaData uDepsW uObjW dbGoodAction 1 0 = some (Except.ok ed))
        ↔ (0 : Int) ≤ appW.mainlineVersion)) :=
  ⟨⟨by decide, by decide, by decide⟩,
   GetMegaData_version_gate uDepsW uObjW dbGoodAction 1 0 appW
     (by decide) (by decide) (by decide)⟩

/-- C5: evaluated at a store holding one dotted-line-square row with key `k`
and serialized value `serialized`, the assembled dottedLineSquareState maps
the key to `GoValue.str "serialized"` — the raw serialized string — and not
to the object the deserializer produces on that value: the Go loop stores
`line.Value` and leaves the unmarshalled `revMsg` unused, contradicting the
claim for the third kv map (the other two maps do store the deserialized
form, as `formatDependenciesState`/`formatDragShadowState` show). -/
theorem formatDottedLineSquareState_stores_raw :
    formatDottedLineSquareState uObjW dbDotted 1 0 = [("k", GoValue.str "serialized")]
    ∧ formatDependenciesState uDepsW dbDotted 1 0
        = (retrieveKVStatesByApp dbDotted 1 KV_STATE_TYPE_DEPENDENCIES 0).map
            (fun r => (r.key, uDepsW r.value))
    ∧ formatDragShadowState uObjW dbDotted 1 0
        = (retrieveKVStatesByApp dbDotted 1 KV_STATE_TYPE_DRAG_SHADOW 0).map
            (fun r => (r.key, GoValue.obj (uObjW r.value)))
    ∧ ¬ GoValue.str "serialized" = GoValue.obj (uObjW "serialized") :=
  ⟨rfl, rfl, rfl, fun h => GoValue.noConfusion h⟩

/-- C10 counterexample: app 1 exists, the requested version 0 does not
exceed mainlineVersion 0, yet `GetMegaData` does not return a document with
a nil error — it evaluates to the panic `none`, because the store holds an
action whose Type is 99, so an assembly failure is not discarded but
crashes. -/
theorem GetMegaData_no_nil_error_cex :
    retrieveAppByID dbBadAction2 1 = some appW
    ∧ appW.mainlineVersion = 0
    ∧ ¬ (∃ ed, GetMegaData uDepsW uObjW dbBadAction2 1 0 = some (Except.ok ed)) := by
  refine ⟨rfl, rfl, ?_⟩
  rintro ⟨ed, hed⟩
  have h2 : (none : Option (Except String Editor)) = some (Except.ok ed) := hed
  exact Option.noConfusion h2

/-- C10 amended: once the app exists with nonzero id, the requested version
does not exceed mainlineVersion, and every retrieved action's Type is in
range 0..21 (otherwise the assembly panics — the hazard of C9),
`GetMegaData` returns a document with a nil error, each section's assembly
error being discarded: in particular an (app, version) with zero tree-state
rows yields a document whose components field is `none` rather than a
surfaced error. -/
theorem GetMegaData_discards_section_errors (uDeps : String → List String)
    (uObj : String → List (String × GoValue)) (db : Db) (appID version : Int) (a : App)
    (hfind : retrieveAppByID db appID = some a) (hid : ¬ a.id = 0)
    (hver : version ≤ a.mainlineVersion)
    (hact : ∀ act ∈ retrieveActionsByAppVersion db appID version,
      0 ≤ act.type ∧ act.type < 22) :
    ∃ ed, GetMegaData uDeps uObj db appID version = some (Except.ok ed)
      ∧ (retrieveTreeStatesByApp db appID TREE_STATE_TYPE_COMPONENTS version = [] →
          ed.components = none) := by
  unfold GetMegaData fetchEditor
  rw [hfind]
  simp only []
  rw [if_neg ((not_or).mpr ⟨hid, by omega⟩)]
  have hsome := (formatActions_isSome_iff db appID version).mpr hact
  obtain ⟨acts, hacts⟩ := Option.isSome_iff_exists.mp hsome
  rw [hacts]
  refine ⟨_, rfl, ?_⟩
  intro hrows
  show (formatComponents db appID version).1 = none
  unfold formatComponents
  rw [hrows]
  rfl

theorem GetMegaData_discards_section_errors_witness :
    (retrieveAppByID dbGoodAction 1 = some appW
      ∧ ¬ appW.id = 0
      ∧ (0 : Int) ≤ appW.mainlineVersion
      ∧ (∀ act ∈ retrieveActionsByAppVersion dbGoodAction 1 0,
          0 ≤ act.type ∧ act.type < 22))
    ∧ (∃ ed, GetMegaData uDepsW uObjW dbGoodAction 1 0 = some (Except.ok ed)
        ∧ (retrieveTreeStatesByApp dbGoodAction 1 TREE_STATE_TYPE_COMPONENTS 0 = [] →
            ed.components = none)) :=
  ⟨⟨by decide, by decide, by decide, by decide⟩,
   GetMegaData_discards_section_errors uDepsW uObjW dbGoodAction 1 0 appW
     (by decide) (by decide) (by decide) (by decide)⟩
